import Mathlib

set_option maxHeartbeats 1000000

/-!
Shallow embedding of `src/MazeGenerator/main.cpp`, a Randomized Prim's maze
generator, together with proofs about its generation algorithm.

Modelling conventions:
* C++ `int` coordinates are `Int`; the grid dimensions are `Nat` (the program
  only ever constructs grids with nonnegative dimensions, and every claim
  assumes positive ones).
* `std::vector< std::vector<Cell> > _cells` is `List (List Cell)`.
* The in-place write `cellAtPosition(pos) = value` (a write through the
  reference returned by `Grid::cellAtPosition`, which asserts the position is
  inside the grid) is `Grid.setCellAtPosition`, returning `none` when the
  assertion would fire.  Likewise reads return `Option Cell`.
* `rand()` is an arbitrary stream `r : Nat → Nat` of draws, consumed in call
  order: draw 0 is the start row, draw 1 the start column, and each loop
  iteration consumes one draw for the frontier index and (when the neighbour
  list is non-empty) one for the neighbour index.
* The `while (!frontierCells.empty())` loop is driven by fuel; running out of
  fuel with a non-empty frontier yields `none`.  `generateMaze` supplies
  `width * height` fuel, which the termination theorem shows is enough.
-/

/-- The two cell states (`enum class Cell { Wall, Path }`). -/
inductive Cell where
  | Wall : Cell
  | Path : Cell
deriving DecidableEq, Repr

/-- `struct Position { int row, col; }` with component-wise equality. -/
structure Position where
  row : Int
  col : Int
deriving DecidableEq, Repr

/-- The grid: `_width`, `_height`, and the cell matrix `_cells`
(`height` rows of `width` cells each). -/
structure Grid where
  width : Nat
  height : Nat
  cells : List (List Cell)
deriving DecidableEq, Repr

/-- `Grid::Grid(int width, int height)`: every cell initialised to `Wall`. -/
def Grid.init (width height : Nat) : Grid :=
  { width := width, height := height,
    cells := List.replicate height (List.replicate width Cell.Wall) }

/-- `Grid::isPositionInGrid`. -/
def Grid.isPositionInGrid (g : Grid) (pos : Position) : Bool :=
  pos.row ≥ 0 && pos.row < (g.height : Int) && pos.col ≥ 0 && pos.col < (g.width : Int)

/-- Reading a cell through `Grid::cellAtPosition`; `none` models the failed
in-bounds assertion. -/
def Grid.cellAtPosition (g : Grid) (pos : Position) : Option Cell :=
  if g.isPositionInGrid pos then
    some ((g.cells.getD pos.row.toNat []).getD pos.col.toNat Cell.Wall)
  else none

/-- The unguarded store `_cells[pos.row][pos.col] = c`. -/
def Grid.writeCell (g : Grid) (pos : Position) (c : Cell) : Grid :=
  { g with cells := g.cells.set pos.row.toNat ((g.cells.getD pos.row.toNat []).set pos.col.toNat c) }

/-- Writing a cell through `Grid::cellAtPosition` (`cellAtPosition(pos) = v`);
`none` models the failed in-bounds assertion. -/
def Grid.setCellAtPosition (g : Grid) (pos : Position) (c : Cell) : Option Grid :=
  if g.isPositionInGrid pos then some (g.writeCell pos c) else none

/-- `Grid::frontierCellsForPositionMatchingCell`: the in-grid positions at the
four step-2 offsets (left, right, top, bottom — in the source's `push_back`
order) whose current cell equals `cell`. -/
def Grid.frontierCellsForPositionMatchingCell (g : Grid) (pos : Position) (cell : Cell) :
    List Position :=
  let leftPos : Position := ⟨pos.row, pos.col - 2⟩
  let rightPos : Position := ⟨pos.row, pos.col + 2⟩
  let topPos : Position := ⟨pos.row - 2, pos.col⟩
  let bottomPos : Position := ⟨pos.row + 2, pos.col⟩
  (if g.isPositionInGrid leftPos ∧ g.cellAtPosition leftPos = some cell
    then [leftPos] else []) ++
  (if g.isPositionInGrid rightPos ∧ g.cellAtPosition rightPos = some cell
    then [rightPos] else []) ++
  (if g.isPositionInGrid topPos ∧ g.cellAtPosition topPos = some cell
    then [topPos] else []) ++
  (if g.isPositionInGrid bottomPos ∧ g.cellAtPosition bottomPos = some cell
    then [bottomPos] else [])

/-- `Grid::positionBetweenFrontierAndCell`. -/
def positionBetweenFrontierAndCell (frontierPos cellPos : Position) : Position :=
  if cellPos.row < frontierPos.row then ⟨cellPos.row + 1, cellPos.col⟩
  else if cellPos.row > frontierPos.row then ⟨cellPos.row - 1, cellPos.col⟩
  else if cellPos.col < frontierPos.col then ⟨cellPos.row, cellPos.col + 1⟩
  else if cellPos.col > frontierPos.col then ⟨cellPos.row, cellPos.col - 1⟩
  else cellPos

/-- The state of `Grid::generateMaze` between loop iterations: the grid, the
`frontierCells` vector, the index of the next `rand()` draw to consume, and
the number of completed loop iterations. -/
structure GenState where
  grid : Grid
  frontierCells : List Position
  randIdx : Nat
  iterations : Nat
deriving DecidableEq, Repr

/-- One iteration of the `while (!frontierCells.empty())` loop
(lines 80–112 of `main.cpp`). -/
def generateIteration (st : GenState) (r : Nat → Nat) : Option GenState := do
  let randomFrontierIndex := r st.randIdx % st.frontierCells.length
  let randomFrontierPos ← st.frontierCells.get? randomFrontierIndex
  let g1 ← st.grid.setCellAtPosition randomFrontierPos Cell.Path
  let neighbours := g1.frontierCellsForPositionMatchingCell randomFrontierPos Cell.Path
  let step ←
    if neighbours.isEmpty then
      pure (g1, st.randIdx + 1)
    else do
      let randomNeighbour ← neighbours.get? (r (st.randIdx + 1) % neighbours.length)
      let inBetweenPos := positionBetweenFrontierAndCell randomNeighbour randomFrontierPos
      let g2 ← g1.setCellAtPosition inBetweenPos Cell.Path
      pure (g2, st.randIdx + 2)
  let newFrontier := step.1.frontierCellsForPositionMatchingCell randomFrontierPos Cell.Wall
  let newFrontierFiltered := newFrontier.filter (fun p => decide (p ∉ st.frontierCells))
  pure { grid := step.1,
         frontierCells := (st.frontierCells ++ newFrontierFiltered).eraseIdx randomFrontierIndex,
         randIdx := step.2,
         iterations := st.iterations + 1 }

/-- The `neighbours` list computed at lines 82–87 when an iteration starts
from state `st`: the chosen frontier cell is marked `Path`, then its step-2
`Path` neighbours are collected. -/
def neighboursAtIteration (st : GenState) (r : Nat → Nat) : Option (List Position) := do
  let randomFrontierIndex := r st.randIdx % st.frontierCells.length
  let randomFrontierPos ← st.frontierCells.get? randomFrontierIndex
  let g1 ← st.grid.setCellAtPosition randomFrontierPos Cell.Path
  pure (g1.frontierCellsForPositionMatchingCell randomFrontierPos Cell.Path)

/-- The generation loop, driven by fuel; `none` on fuel exhaustion with a
non-empty frontier (or on a failed assertion inside an iteration). -/
def generateLoop (r : Nat → Nat) : Nat → GenState → Option GenState
  | 0, st => if st.frontierCells = [] then some st else none
  | fuel + 1, st =>
    if st.frontierCells = [] then some st
    else do
      let st2 ← generateIteration st r
      generateLoop r fuel st2

/-- Lines 69–78 of `Grid::generateMaze`: pick the random start position, mark
it `Path`, and compute the initial frontier list. -/
def generateMazeInit (g : Grid) (r : Nat → Nat) : Option GenState := do
  let startPos : Position := ⟨(r 0 % g.height : Nat), (r 1 % g.width : Nat)⟩
  let g1 ← g.setCellAtPosition startPos Cell.Path
  let frontier := g1.frontierCellsForPositionMatchingCell startPos Cell.Wall
  pure { grid := g1, frontierCells := frontier, randIdx := 2, iterations := 0 }

/-- `Grid::generateMaze`, with `width * height` fuel for the loop (shown
sufficient by the termination theorem). -/
def generateMaze (g : Grid) (r : Nat → Nat) : Option GenState := do
  let st ← generateMazeInit g r
  generateLoop r (g.width * g.height) st

/-- The glyph `Grid::print` writes for one cell. -/
def printCell (c : Cell) : Char :=
  match c with
  | Cell.Wall => '█'
  | Cell.Path => ' '

/-- `Grid::print`: one line per row, top to bottom, one glyph per cell in
column order.  A pure function of the grid: the grid is not modified. -/
def Grid.print (g : Grid) : List (List Char) :=
  g.cells.map (fun row => row.map printCell)


/-! ### Specification-side notions -/

/-- The cell matrix really consists of `height` rows of `width` cells
(true of every grid the program builds; maintained by every write). -/
def GridWF (g : Grid) : Prop :=
  g.cells.length = g.height ∧ ∀ row ∈ g.cells, row.length = g.width

/-- Single-step 4-directional adjacency of positions. -/
def adjacentPos (p q : Position) : Prop :=
  (p.row = q.row ∧ (q.col = p.col + 1 ∨ p.col = q.col + 1)) ∨
  (p.col = q.col ∧ (q.row = p.row + 1 ∨ p.row = q.row + 1))

/-- `q` is one of the four step-2 offsets of `p` (the candidates examined by
`frontierCellsForPositionMatchingCell`). -/
def isStep2Neighbour (q p : Position) : Prop :=
  q = ⟨p.row, p.col - 2⟩ ∨ q = ⟨p.row, p.col + 2⟩ ∨
  q = ⟨p.row - 2, p.col⟩ ∨ q = ⟨p.row + 2, p.col⟩

/-- `q` is reachable from `p` in grid `g` via a chain of single-step
4-directionally adjacent cells, each of which is an in-grid `Path` cell. -/
inductive ReachablePath (g : Grid) : Position → Position → Prop where
  | refl (p : Position) : ReachablePath g p p
  | tail (p q s : Position) : ReachablePath g p q → adjacentPos q s →
      g.cellAtPosition s = some Cell.Path → ReachablePath g p s

/-- The loop invariant of `generateMaze`, relative to the start position:
well-formedness, the start cell is `Path`, the frontier list is duplicate-free,
all its members are `Wall` cells on the start's step-2 lattice each having an
in-grid `Path` cell at some step-2 offset, and every `Path` cell is reachable
from the start. -/
structure MazeInv (start : Position) (g : Grid) (frontier : List Position) : Prop where
  wf : GridWF g
  startPath : g.cellAtPosition start = some Cell.Path
  nodup : frontier.Nodup
  fWall : ∀ p ∈ frontier, g.cellAtPosition p = some Cell.Wall
  fLattice : ∀ p ∈ frontier, (p.row - start.row) % 2 = 0 ∧ (p.col - start.col) % 2 = 0
  fNbr : ∀ p ∈ frontier, ∃ q, isStep2Neighbour q p ∧ g.cellAtPosition q = some Cell.Path
  connected : ∀ p, g.cellAtPosition p = some Cell.Path → ReachablePath g start p

/-- `st'` is a state at the start of some iteration of the generation loop
run from `st`: the reflexive-transitive closure of successful iterations
from states with a non-empty frontier. -/
inductive ReachesState (r : Nat → Nat) : GenState → GenState → Prop where
  | refl (st : GenState) : ReachesState r st st
  | tail (st st1 st2 : GenState) : ReachesState r st st1 →
      st1.frontierCells ≠ [] → generateIteration st1 r = some st2 →
      ReachesState r st st2

/-- The in-grid coordinates on `start`'s step-2 lattice whose cell is still
`Wall`: the termination measure of the generation loop. -/
def latticeWalls (start : Position) (g : Grid) : Finset (Nat × Nat) :=
  ((Finset.range g.height) ×ˢ (Finset.range g.width)).filter
    (fun rc => ((rc.1 : Int) - start.row) % 2 = 0 ∧ ((rc.2 : Int) - start.col) % 2 = 0 ∧
      g.cellAtPosition ⟨(rc.1 : Int), (rc.2 : Int)⟩ = some Cell.Wall)

/-- The state built by one loop iteration that selected `chosen` at index `idx`
and produced grid `g2` (lines 96–111 of `main.cpp`). -/
def iterationResult (st : GenState) (g2 : Grid) (chosen : Position) (idx : Nat) : GenState :=
  { grid := g2,
    frontierCells := (st.frontierCells ++
      (g2.frontierCellsForPositionMatchingCell chosen Cell.Wall).filter
        (fun p => decide (p ∉ st.frontierCells))).eraseIdx idx,
    randIdx := st.randIdx + 2,
    iterations := st.iterations + 1 }

/-- The random start position of `generateMaze`: row `rand() % height`,
then column `rand() % width`. -/
def startPosition (width height : Nat) (r : Nat → Nat) : Position :=
  ⟨((r 0 % height : Nat) : Int), ((r 1 % width : Nat) : Int)⟩

def initState (width height : Nat) (r : Nat → Nat) : GenState :=
  { grid := (Grid.init width height).writeCell (startPosition width height r) Cell.Path,
    frontierCells := ((Grid.init width height).writeCell (startPosition width height r)
      Cell.Path).frontierCellsForPositionMatchingCell (startPosition width height r) Cell.Wall,
    randIdx := 2,
    iterations := 0 }

/-! ### Basic lemmas about cell access -/

theorem gridWF_init (width height : Nat) : GridWF (Grid.init width height) := by
  refine ⟨by simp [Grid.init], ?_⟩
  intro row hrow
  simp only [Grid.init] at hrow
  rw [List.eq_of_mem_replicate hrow]
  simp [Grid.init]

theorem isPositionInGrid_iff (g : Grid) (p : Position) :
    g.isPositionInGrid p = true ↔
      0 ≤ p.row ∧ p.row < (g.height : Int) ∧ 0 ≤ p.col ∧ p.col < (g.width : Int) := by
  simp only [Grid.isPositionInGrid, Bool.and_eq_true, decide_eq_true_eq, ge_iff_le]
  tauto

theorem cellAtPosition_isInGrid {g : Grid} {p : Position} {c : Cell}
    (h : g.cellAtPosition p = some c) : g.isPositionInGrid p = true := by
  unfold Grid.cellAtPosition at h
  split at h
  · assumption
  · exact absurd h (by simp)

theorem cellAtPosition_of_isInGrid {g : Grid} {p : Position}
    (h : g.isPositionInGrid p = true) :
    g.cellAtPosition p = some ((g.cells.getD p.row.toNat []).getD p.col.toNat Cell.Wall) := by
  unfold Grid.cellAtPosition
  simp [h]

theorem cellAtPosition_none {g : Grid} {p : Position}
    (h : ¬ g.isPositionInGrid p = true) : g.cellAtPosition p = none := by
  unfold Grid.cellAtPosition
  simp [h]

theorem writeCell_dims (g : Grid) (p : Position) (c : Cell) :
    (g.writeCell p c).width = g.width ∧ (g.writeCell p c).height = g.height :=
  ⟨rfl, rfl⟩

theorem writeCell_isPositionInGrid (g : Grid) (p : Position) (c : Cell) (q : Position) :
    (g.writeCell p c).isPositionInGrid q = g.isPositionInGrid q := rfl

theorem setCellAtPosition_eq_some {g : Grid} {p : Position} {c : Cell} {g' : Grid}
    (h : g.setCellAtPosition p c = some g') :
    g.isPositionInGrid p = true ∧ g' = g.writeCell p c := by
  unfold Grid.setCellAtPosition at h
  split at h
  · exact ⟨by assumption, (Option.some.inj h).symm⟩
  · exact absurd h (by simp)

theorem setCellAtPosition_of_isInGrid {g : Grid} {p : Position} (c : Cell)
    (h : g.isPositionInGrid p = true) :
    g.setCellAtPosition p c = some (g.writeCell p c) := by
  unfold Grid.setCellAtPosition
  simp [h]

theorem setCellAtPosition_dims {g g' : Grid} {p : Position} {c : Cell}
    (h : g.setCellAtPosition p c = some g') : g'.width = g.width ∧ g'.height = g.height := by
  obtain ⟨-, rfl⟩ := setCellAtPosition_eq_some h
  exact ⟨rfl, rfl⟩

theorem writeCell_wf {g : Grid} {p : Position} {c : Cell}
    (hwf : GridWF g) (hin : g.isPositionInGrid p = true) : GridWF (g.writeCell p c) := by
  obtain ⟨hlen, hrows⟩ := hwf
  refine ⟨by simpa [Grid.writeCell] using hlen, ?_⟩
  intro row hrow
  simp only [Grid.writeCell] at hrow
  rcases List.mem_or_eq_of_mem_set hrow with hmem | rfl
  · exact hrows _ hmem
  · rw [List.length_set]
    rcases Nat.lt_or_ge p.row.toNat g.cells.length with hlt | hge
    · rw [List.getD_eq_getElem _ _ hlt]
      exact hrows _ (List.getElem_mem hlt)
    · rw [isPositionInGrid_iff] at hin
      omega

theorem matrix_set_getD {m : List (List Cell)} {i j : Nat} (i' j' : Nat) {c : Cell}
    (hi : i < m.length) (hj : j < (m.getD i []).length) :
    ((m.set i ((m.getD i []).set j c)).getD i' []).getD j' Cell.Wall =
      if i' = i ∧ j' = j then c else (m.getD i' []).getD j' Cell.Wall := by
  by_cases h1 : i' = i
  · subst h1
    rw [List.getD_eq_getElem?_getD (m.set i' _) i' [], List.getElem?_set_eq_of_lt _ hi,
      Option.getD_some]
    by_cases h2 : j' = j
    · subst h2
      rw [if_pos ⟨rfl, rfl⟩, List.getD_eq_getElem?_getD, List.getElem?_set_eq_of_lt _ hj,
        Option.getD_some]
    · rw [if_neg (by tauto), List.getD_eq_getElem?_getD, List.getElem?_set_ne (Ne.symm h2),
        ← List.getD_eq_getElem?_getD]
  · rw [if_neg (by tauto), List.getD_eq_getElem?_getD (m.set i _) i' [],
      List.getElem?_set_ne (fun h => h1 h.symm), ← List.getD_eq_getElem?_getD]

theorem cellAtPosition_writeCell {g : Grid} {p : Position} {c : Cell}
    (hwf : GridWF g) (hin : g.isPositionInGrid p = true) (q : Position) :
    (g.writeCell p c).cellAtPosition q = if q = p then some c else g.cellAtPosition q := by
  obtain ⟨hlen, hrows⟩ := hwf
  have hin' := hin
  rw [isPositionInGrid_iff] at hin'
  have hrowlt : p.row.toNat < g.cells.length := by omega
  have hrowget : g.cells.getD p.row.toNat [] = g.cells[p.row.toNat] :=
    List.getD_eq_getElem _ _ hrowlt
  have hrowlen : g.cells[p.row.toNat].length = g.width :=
    hrows _ (List.getElem_mem hrowlt)
  have hcollt : p.col.toNat < (g.cells.getD p.row.toNat []).length := by
    rw [hrowget, hrowlen]; omega
  by_cases hqin : g.isPositionInGrid q = true
  · have hqin' := hqin
    rw [isPositionInGrid_iff] at hqin'
    rw [cellAtPosition_of_isInGrid (g := g) hqin,
      cellAtPosition_of_isInGrid (g := g.writeCell p c)
        (by rw [writeCell_isPositionInGrid]; exact hqin)]
    show some ((((g.cells.set p.row.toNat _)).getD q.row.toNat []).getD q.col.toNat _) = _
    rw [matrix_set_getD q.row.toNat q.col.toNat hrowlt hcollt]
    by_cases hqp : q = p
    · subst hqp
      rw [if_pos ⟨rfl, rfl⟩, if_pos rfl]
    · have hne : ¬ (q.row.toNat = p.row.toNat ∧ q.col.toNat = p.col.toNat) := by
        intro hand
        apply hqp
        cases q; cases p
        simp only [Position.mk.injEq]
        simp only at hand hqin' hin'
        omega
      rw [if_neg hne, if_neg hqp]
  · have hqp : q ≠ p := fun hq => hqin (hq ▸ hin)
    rw [if_neg hqp, cellAtPosition_none hqin,
      cellAtPosition_none (by rw [writeCell_isPositionInGrid]; exact hqin)]

/-! ### Lemmas about the frontier computation and the midpoint -/

theorem mem_frontierCells {g : Grid} {pos : Position} {cell : Cell} {q : Position} :
    q ∈ g.frontierCellsForPositionMatchingCell pos cell ↔
      isStep2Neighbour q pos ∧ g.cellAtPosition q = some cell := by
  have hmem : ∀ (c : Prop) (inst : Decidable c) (x y : Position),
      (y ∈ if c then [x] else []) ↔ c ∧ y = x := by
    intro c inst x y
    split <;> simp_all
  simp only [Grid.frontierCellsForPositionMatchingCell, List.mem_append, hmem]
  constructor
  · rintro (((⟨⟨-, hc⟩, rfl⟩ | ⟨⟨-, hc⟩, rfl⟩) | ⟨⟨-, hc⟩, rfl⟩) | ⟨⟨-, hc⟩, rfl⟩)
    · exact ⟨Or.inl rfl, hc⟩
    · exact ⟨Or.inr (Or.inl rfl), hc⟩
    · exact ⟨Or.inr (Or.inr (Or.inl rfl)), hc⟩
    · exact ⟨Or.inr (Or.inr (Or.inr rfl)), hc⟩
  · rintro ⟨(rfl | rfl | rfl | rfl), hc⟩
    · exact Or.inl (Or.inl (Or.inl ⟨⟨cellAtPosition_isInGrid hc, hc⟩, rfl⟩))
    · exact Or.inl (Or.inl (Or.inr ⟨⟨cellAtPosition_isInGrid hc, hc⟩, rfl⟩))
    · exact Or.inl (Or.inr ⟨⟨cellAtPosition_isInGrid hc, hc⟩, rfl⟩)
    · exact Or.inr ⟨⟨cellAtPosition_isInGrid hc, hc⟩, rfl⟩

theorem frontierCells_nodup (g : Grid) (pos : Position) (cell : Cell) :
    (g.frontierCellsForPositionMatchingCell pos cell).Nodup := by
  simp only [Grid.frontierCellsForPositionMatchingCell]
  split_ifs <;>
    simp_all [List.Nodup, Position.mk.injEq] <;> omega

theorem isStep2Neighbour_symm {q p : Position} (h : isStep2Neighbour q p) :
    isStep2Neighbour p q := by
  rcases h with rfl | rfl | rfl | rfl
  · refine Or.inr (Or.inl ?_)
    cases p
    simp [Position.mk.injEq]
  · refine Or.inl ?_
    cases p
    simp [Position.mk.injEq]
  · refine Or.inr (Or.inr (Or.inr ?_))
    cases p
    simp [Position.mk.injEq]
  · refine Or.inr (Or.inr (Or.inl ?_))
    cases p
    simp [Position.mk.injEq]

theorem positionBetween_left (pos : Position) :
    positionBetweenFrontierAndCell ⟨pos.row, pos.col - 2⟩ pos = ⟨pos.row, pos.col - 1⟩ := by
  simp only [positionBetweenFrontierAndCell]
  split_ifs <;> first | rfl | (exfalso; omega)

theorem positionBetween_right (pos : Position) :
    positionBetweenFrontierAndCell ⟨pos.row, pos.col + 2⟩ pos = ⟨pos.row, pos.col + 1⟩ := by
  simp only [positionBetweenFrontierAndCell]
  split_ifs <;> first | rfl | (exfalso; omega)

theorem positionBetween_top (pos : Position) :
    positionBetweenFrontierAndCell ⟨pos.row - 2, pos.col⟩ pos = ⟨pos.row - 1, pos.col⟩ := by
  simp only [positionBetweenFrontierAndCell]
  split_ifs <;> first | rfl | (exfalso; omega)

theorem positionBetween_bottom (pos : Position) :
    positionBetweenFrontierAndCell ⟨pos.row + 2, pos.col⟩ pos = ⟨pos.row + 1, pos.col⟩ := by
  simp only [positionBetweenFrontierAndCell]
  split_ifs <;> first | rfl | (exfalso; omega)

/-! ### Lemmas about reachability -/

theorem reachablePath_trans {g : Grid} {p q s : Position}
    (h1 : ReachablePath g p q) (h2 : ReachablePath g q s) : ReachablePath g p s := by
  induction h2 with
  | refl => exact h1
  | tail b c hqb hadj hc ih => exact ReachablePath.tail _ _ _ ih hadj hc

theorem reachablePath_target_path {g : Grid} {p q : Position}
    (h : ReachablePath g p q) (hp : g.cellAtPosition p = some Cell.Path) :
    g.cellAtPosition q = some Cell.Path := by
  induction h with
  | refl => exact hp
  | tail b c hab hadj hc ih => exact hc

theorem adjacentPos_symm {p q : Position} (h : adjacentPos p q) : adjacentPos q p := by
  rcases h with ⟨hr, hc | hc⟩ | ⟨hc, hr | hr⟩
  · exact Or.inl ⟨hr.symm, Or.inr hc⟩
  · exact Or.inl ⟨hr.symm, Or.inl hc⟩
  · exact Or.inr ⟨hc.symm, Or.inr hr⟩
  · exact Or.inr ⟨hc.symm, Or.inl hr⟩

theorem reachablePath_symm {g : Grid} {p q : Position}
    (h : ReachablePath g p q) (hp : g.cellAtPosition p = some Cell.Path) :
    ReachablePath g q p := by
  induction h with
  | refl => exact ReachablePath.refl _
  | tail b c hab hadj hc ih =>
    have hb : g.cellAtPosition b = some Cell.Path := reachablePath_target_path hab hp
    exact reachablePath_trans
      (ReachablePath.tail c c b (ReachablePath.refl c) (adjacentPos_symm hadj) hb) ih

theorem reachablePath_mono {g g' : Grid} {p q : Position}
    (hmono : ∀ x, g.cellAtPosition x = some Cell.Path → g'.cellAtPosition x = some Cell.Path)
    (h : ReachablePath g p q) : ReachablePath g' p q := by
  induction h with
  | refl => exact ReachablePath.refl _
  | tail b c hab hadj hc ih => exact ReachablePath.tail _ _ _ ih hadj (hmono _ hc)

theorem generateIteration_eq {st : GenState} {r : Nat → Nat} {chosen : Position}
    {g1 g2 : Grid} {neighbours : List Position} {n0 : Position}
    (hget : st.frontierCells.get? (r st.randIdx % st.frontierCells.length) = some chosen)
    (hset1 : st.grid.setCellAtPosition chosen Cell.Path = some g1)
    (hnb : g1.frontierCellsForPositionMatchingCell chosen Cell.Path = neighbours)
    (hnbne : neighbours.isEmpty = false)
    (hnget : neighbours.get? (r (st.randIdx + 1) % neighbours.length) = some n0)
    (hset2 : g1.setCellAtPosition (positionBetweenFrontierAndCell n0 chosen) Cell.Path =
      some g2) :
    generateIteration st r =
      some (iterationResult st g2 chosen (r st.randIdx % st.frontierCells.length)) := by
  unfold generateIteration
  dsimp only
  rw [hget]
  simp only [Option.bind_eq_bind, Option.some_bind]
  rw [hset1]
  simp only [Option.some_bind]
  rw [hnb, hnbne]
  simp only [Bool.false_eq_true, if_false]
  rw [hnget]
  simp only [Option.some_bind]
  rw [hset2]
  simp only [Option.some_bind]
  rfl

theorem isStep2Neighbour_ne {q p : Position} (h : isStep2Neighbour q p) : q ≠ p := by
  rcases h with rfl | rfl | rfl | rfl <;>
    (intro heq; cases p; simp [Position.mk.injEq] at heq)

theorem isStep2Neighbour_coords {q p : Position} (h : isStep2Neighbour q p) :
    (q.row = p.row ∧ (q.col = p.col - 2 ∨ q.col = p.col + 2)) ∨
    (q.col = p.col ∧ (q.row = p.row - 2 ∨ q.row = p.row + 2)) := by
  rcases h with rfl | rfl | rfl | rfl
  · exact Or.inl ⟨rfl, Or.inl rfl⟩
  · exact Or.inl ⟨rfl, Or.inr rfl⟩
  · exact Or.inr ⟨rfl, Or.inl rfl⟩
  · exact Or.inr ⟨rfl, Or.inr rfl⟩

theorem mem_eraseIdx_of_nodup {l : List Position} {idx : Nat} {x : Position}
    (hnd : l.Nodup) (hidx : idx < l.length) (hx : x ∈ l.eraseIdx idx) :
    x ∈ l ∧ x ≠ l.get ⟨idx, hidx⟩ := by
  induction l generalizing idx with
  | nil => simp at hx
  | cons a tl ih =>
    rw [List.nodup_cons] at hnd
    cases idx with
    | zero =>
      have hget0 : (a :: tl).get ⟨0, hidx⟩ = a := rfl
      have hx' : x ∈ tl := hx
      refine ⟨List.mem_cons_of_mem _ hx', ?_⟩
      intro hxa
      rw [hget0] at hxa
      exact hnd.1 (hxa ▸ hx')
    | succ n =>
      have hn : n < tl.length := by simpa using hidx
      have hgets : (a :: tl).get ⟨n + 1, hidx⟩ = tl.get ⟨n, hn⟩ := rfl
      rw [List.eraseIdx_cons_succ] at hx
      rcases List.mem_cons.mp hx with rfl | hx2
      · refine ⟨List.mem_cons_self _ _, ?_⟩
        intro hxa
        rw [hgets] at hxa
        exact hnd.1 (hxa ▸ List.get_mem tl n hn)
      · obtain ⟨hmem, hne⟩ := ih hnd.2 hn hx2
        refine ⟨List.mem_cons_of_mem _ hmem, ?_⟩
        rw [hgets]
        exact hne

theorem mem_latticeWalls {start : Position} {g : Grid} {rc : Nat × Nat} :
    rc ∈ latticeWalls start g ↔ rc.1 < g.height ∧ rc.2 < g.width ∧
      ((rc.1 : Int) - start.row) % 2 = 0 ∧ ((rc.2 : Int) - start.col) % 2 = 0 ∧
      g.cellAtPosition ⟨(rc.1 : Int), (rc.2 : Int)⟩ = some Cell.Wall := by
  unfold latticeWalls
  rw [Finset.mem_filter, Finset.mem_product, Finset.mem_range, Finset.mem_range]
  tauto

theorem frontier_mem_latticeWalls {start : Position} {g : Grid} {frontier : List Position}
    (hfWall : ∀ p ∈ frontier, g.cellAtPosition p = some Cell.Wall)
    (hfLat : ∀ p ∈ frontier, (p.row - start.row) % 2 = 0 ∧ (p.col - start.col) % 2 = 0)
    {p : Position} (hp : p ∈ frontier) :
    ((p.row.toNat, p.col.toNat) : Nat × Nat) ∈ latticeWalls start g := by
  have hwall := hfWall p hp
  have hin := (isPositionInGrid_iff _ _).mp (cellAtPosition_isInGrid hwall)
  obtain ⟨ha, hb, hc, hd⟩ := hin
  have e1 : ((p.row.toNat : Int)) = p.row := Int.toNat_of_nonneg ha
  have e2 : ((p.col.toNat : Int)) = p.col := Int.toNat_of_nonneg hc
  have hpos : (⟨(p.row.toNat : Int), (p.col.toNat : Int)⟩ : Position) = p := by
    rw [e1, e2]
  rw [mem_latticeWalls]
  refine ⟨by omega, by omega, ?_, ?_, ?_⟩
  · rw [e1]
    exact (hfLat p hp).1
  · rw [e2]
    exact (hfLat p hp).2
  · rw [hpos]
    exact hwall

theorem iteration_invariants
    {start chosen n0 : Position} {g g1 g2 : Grid} {frontier : List Position} {idx : Nat}
    (hwf : GridWF g)
    (hstartPath : g.cellAtPosition start = some Cell.Path)
    (hnodup : frontier.Nodup)
    (hfWall : ∀ p ∈ frontier, g.cellAtPosition p = some Cell.Wall)
    (hfLat : ∀ p ∈ frontier, (p.row - start.row) % 2 = 0 ∧ (p.col - start.col) % 2 = 0)
    (hfNbr : ∀ p ∈ frontier, ∃ q, isStep2Neighbour q p ∧ g.cellAtPosition q = some Cell.Path)
    (hconn : ∀ p, g.cellAtPosition p = some Cell.Path → ReachablePath g start p)
    (hidx : idx < frontier.length)
    (hchosen : frontier.get ⟨idx, hidx⟩ = chosen)
    (hg1 : g1 = g.writeCell chosen Cell.Path)
    (hn0mem : n0 ∈ g1.frontierCellsForPositionMatchingCell chosen Cell.Path)
    (hg2 : g2 = g1.writeCell (positionBetweenFrontierAndCell n0 chosen) Cell.Path) :
    g.setCellAtPosition chosen Cell.Path = some g1 ∧
    g1.setCellAtPosition (positionBetweenFrontierAndCell n0 chosen) Cell.Path = some g2 ∧
    MazeInv start g2 ((frontier ++
      (g2.frontierCellsForPositionMatchingCell chosen Cell.Wall).filter
        (fun p => decide (p ∉ frontier))).eraseIdx idx) ∧
    g2.width = g.width ∧ g2.height = g.height ∧
    (∀ x, g.cellAtPosition x = some Cell.Path → g2.cellAtPosition x = some Cell.Path) ∧
    (∀ x, g2.cellAtPosition x ≠ g.cellAtPosition x → g2.cellAtPosition x = some Cell.Path) ∧
    latticeWalls start g2 ⊂ latticeWalls start g := by
  have hchosen_mem : chosen ∈ frontier := hchosen ▸ List.get_mem _ _ _
  have hchosenWall : g.cellAtPosition chosen = some Cell.Wall := hfWall chosen hchosen_mem
  have hchosenIn : g.isPositionInGrid chosen = true := cellAtPosition_isInGrid hchosenWall
  have hchosenIn' := (isPositionInGrid_iff _ _).mp hchosenIn
  have hchosenLat := hfLat chosen hchosen_mem
  have hwf1 : GridWF g1 := hg1 ▸ writeCell_wf hwf hchosenIn
  have hg1cell : ∀ q, g1.cellAtPosition q =
      if q = chosen then some Cell.Path else g.cellAtPosition q := by
    rw [hg1]
    exact cellAtPosition_writeCell hwf hchosenIn
  have hg1w : g1.width = g.width := by rw [hg1]; rfl
  have hg1h : g1.height = g.height := by rw [hg1]; rfl
  obtain ⟨hn0step, hn0Path1⟩ := mem_frontierCells.mp hn0mem
  have hn0In1 : g1.isPositionInGrid n0 = true := cellAtPosition_isInGrid hn0Path1
  have hn0In' : 0 ≤ n0.row ∧ n0.row < (g.height : Int) ∧
      0 ≤ n0.col ∧ n0.col < (g.width : Int) := by
    have h := (isPositionInGrid_iff _ _).mp hn0In1
    rw [hg1h, hg1w] at h
    exact h
  have hn0ne : n0 ≠ chosen := isStep2Neighbour_ne hn0step
  have hn0PathSt : g.cellAtPosition n0 = some Cell.Path := by
    have h := hn0Path1
    rw [hg1cell n0, if_neg hn0ne] at h
    exact h
  have hmidfacts : adjacentPos n0 (positionBetweenFrontierAndCell n0 chosen) ∧
      adjacentPos (positionBetweenFrontierAndCell n0 chosen) chosen ∧
      (((positionBetweenFrontierAndCell n0 chosen).row = chosen.row ∧
        ((positionBetweenFrontierAndCell n0 chosen).col = chosen.col + 1 ∨
         (positionBetweenFrontierAndCell n0 chosen).col = chosen.col - 1)) ∨
       ((positionBetweenFrontierAndCell n0 chosen).col = chosen.col ∧
        ((positionBetweenFrontierAndCell n0 chosen).row = chosen.row + 1 ∨
         (positionBetweenFrontierAndCell n0 chosen).row = chosen.row - 1))) ∧
      g.isPositionInGrid (positionBetweenFrontierAndCell n0 chosen) = true := by
    obtain ⟨ha, hb, hc, hd⟩ := hn0In'
    obtain ⟨he, hf0, hg0, hh0⟩ := hchosenIn'
    rcases hn0step with h | h | h | h
    · have e1 : n0.row = chosen.row ∧ n0.col = chosen.col - 2 := by
        rw [h]
        exact ⟨rfl, rfl⟩
      rw [h, positionBetween_left]
      refine ⟨?_, ?_, ?_, ?_⟩ <;> simp [adjacentPos, isPositionInGrid_iff] <;> omega
    · have e1 : n0.row = chosen.row ∧ n0.col = chosen.col + 2 := by
        rw [h]
        exact ⟨rfl, rfl⟩
      rw [h, positionBetween_right]
      refine ⟨?_, ?_, ?_, ?_⟩ <;> simp [adjacentPos, isPositionInGrid_iff] <;> omega
    · have e1 : n0.row = chosen.row - 2 ∧ n0.col = chosen.col := by
        rw [h]
        exact ⟨rfl, rfl⟩
      rw [h, positionBetween_top]
      refine ⟨?_, ?_, ?_, ?_⟩ <;> simp [adjacentPos, isPositionInGrid_iff] <;> omega
    · have e1 : n0.row = chosen.row + 2 ∧ n0.col = chosen.col := by
        rw [h]
        exact ⟨rfl, rfl⟩
      rw [h, positionBetween_bottom]
      refine ⟨?_, ?_, ?_, ?_⟩ <;> simp [adjacentPos, isPositionInGrid_iff] <;> omega
  obtain ⟨hadj1, hadj2, hmidchar, hmidInSt⟩ := hmidfacts
  have hmidIn1 : g1.isPositionInGrid (positionBetweenFrontierAndCell n0 chosen) = true := by
    rw [hg1, writeCell_isPositionInGrid]
    exact hmidInSt
  have hwf2 : GridWF g2 := hg2 ▸ writeCell_wf hwf1 hmidIn1
  have hg2cell : ∀ q, g2.cellAtPosition q =
      if q = positionBetweenFrontierAndCell n0 chosen then some Cell.Path
      else g1.cellAtPosition q := by
    rw [hg2]
    exact cellAtPosition_writeCell hwf1 hmidIn1
  have hg2w : g2.width = g.width := by rw [hg2, hg1]; rfl
  have hg2h : g2.height = g.height := by rw [hg2, hg1]; rfl
  have hmono : ∀ x, g.cellAtPosition x = some Cell.Path →
      g2.cellAtPosition x = some Cell.Path := by
    intro x hx
    rw [hg2cell x]
    split
    · rfl
    · rw [hg1cell x]
      split
      · rfl
      · exact hx
  have hchosenPath2 : g2.cellAtPosition chosen = some Cell.Path := by
    rw [hg2cell]
    split
    · rfl
    · rw [hg1cell, if_pos rfl]
  have hmidPath2 : g2.cellAtPosition (positionBetweenFrontierAndCell n0 chosen) =
      some Cell.Path := by
    rw [hg2cell, if_pos rfl]
  have hsame : ∀ x, x ≠ chosen → x ≠ positionBetweenFrontierAndCell n0 chosen →
      g2.cellAtPosition x = g.cellAtPosition x := by
    intro x h1 h2
    rw [hg2cell, if_neg h2, hg1cell, if_neg h1]
  have hchanged : ∀ x, g2.cellAtPosition x ≠ g.cellAtPosition x →
      g2.cellAtPosition x = some Cell.Path := by
    intro x hx
    by_cases h2 : x = positionBetweenFrontierAndCell n0 chosen
    · rw [h2]
      exact hmidPath2
    · by_cases h1 : x = chosen
      · rw [h1]
        exact hchosenPath2
      · exact absurd (hsame x h1 h2) hx
  have hmid_not_lattice : ∀ p, (p.row - start.row) % 2 = 0 → (p.col - start.col) % 2 = 0 →
      p ≠ positionBetweenFrontierAndCell n0 chosen := by
    intro p hr hc heq
    obtain ⟨hcr, hcc⟩ := hchosenLat
    rw [heq] at hr hc
    rcases hmidchar with ⟨h1, h2 | h2⟩ | ⟨h1, h2 | h2⟩ <;> omega
  have hreach_n0 : ReachablePath g2 start n0 := reachablePath_mono hmono (hconn n0 hn0PathSt)
  have hreach_mid : ReachablePath g2 start (positionBetweenFrontierAndCell n0 chosen) :=
    ReachablePath.tail _ _ _ hreach_n0 hadj1 hmidPath2
  have hreach_chosen : ReachablePath g2 start chosen :=
    ReachablePath.tail _ _ _ hreach_mid hadj2 hchosenPath2
  have hF'mem : ∀ p ∈ (frontier ++
      (g2.frontierCellsForPositionMatchingCell chosen Cell.Wall).filter
        (fun p => decide (p ∉ frontier))).eraseIdx idx,
      (p ∈ frontier ∧ p ≠ chosen) ∨
      (isStep2Neighbour p chosen ∧ g2.cellAtPosition p = some Cell.Wall ∧ p ∉ frontier) := by
    intro p hp
    rw [List.eraseIdx_append_of_lt_length hidx] at hp
    rcases List.mem_append.mp hp with hpA | hpB
    · obtain ⟨hmemA, hneA⟩ := mem_eraseIdx_of_nodup hnodup hidx hpA
      exact Or.inl ⟨hmemA, hchosen ▸ hneA⟩
    · rw [List.mem_filter] at hpB
      obtain ⟨hmemN, hdec⟩ := hpB
      obtain ⟨hstep, hwall⟩ := mem_frontierCells.mp hmemN
      exact Or.inr ⟨hstep, hwall, of_decide_eq_true hdec⟩
  refine ⟨hg1 ▸ setCellAtPosition_of_isInGrid _ hchosenIn,
    hg2 ▸ setCellAtPosition_of_isInGrid _ hmidIn1,
    ⟨hwf2, hmono start hstartPath, ?_, ?_, ?_, ?_, ?_⟩,
    hg2w, hg2h, hmono, hchanged, ?_⟩
  · -- no duplicates in the new frontier
    have hnodupNew : ((g2.frontierCellsForPositionMatchingCell chosen Cell.Wall).filter
        (fun p => decide (p ∉ frontier))).Nodup :=
      (frontierCells_nodup _ _ _).filter _
    have hdisj : List.Disjoint frontier
        ((g2.frontierCellsForPositionMatchingCell chosen Cell.Wall).filter
          (fun p => decide (p ∉ frontier))) := by
      intro a haA haB
      rw [List.mem_filter] at haB
      exact absurd haA (of_decide_eq_true haB.2)
    exact (List.eraseIdx_sublist _ _).nodup (hnodup.append hnodupNew hdisj)
  · -- all frontier members are Wall cells
    intro p hp
    rcases hF'mem p hp with ⟨hmemA, hneq⟩ | ⟨-, hwall, -⟩
    · rw [hsame p hneq (hmid_not_lattice p (hfLat p hmemA).1 (hfLat p hmemA).2)]
      exact hfWall p hmemA
    · exact hwall
  · -- all frontier members lie on the start's step-2 lattice
    intro p hp
    rcases hF'mem p hp with ⟨hmemA, -⟩ | ⟨hstep, -, -⟩
    · exact hfLat p hmemA
    · obtain ⟨hcr, hcc⟩ := hchosenLat
      rcases isStep2Neighbour_coords hstep with ⟨h1, h2⟩ | ⟨h1, h2⟩ <;>
        constructor <;> omega
  · -- every frontier member has a Path cell at a step-2 offset
    intro p hp
    rcases hF'mem p hp with ⟨hmemA, -⟩ | ⟨hstep, -, -⟩
    · obtain ⟨q, hq1, hq2⟩ := hfNbr p hmemA
      exact ⟨q, hq1, hmono q hq2⟩
    · exact ⟨chosen, isStep2Neighbour_symm hstep, hchosenPath2⟩
  · -- connectivity
    intro p hp
    by_cases h2 : p = positionBetweenFrontierAndCell n0 chosen
    · rw [h2]
      exact hreach_mid
    · by_cases h1 : p = chosen
      · rw [h1]
        exact hreach_chosen
      · have hst : g.cellAtPosition p = some Cell.Path := by
          rw [← hsame p h1 h2]
          exact hp
        exact reachablePath_mono hmono (hconn p hst)
  · -- the measure strictly decreases
    have hsub : latticeWalls start g2 ⊆ latticeWalls start g := by
      intro rc hrc
      rw [mem_latticeWalls] at hrc ⊢
      obtain ⟨hr1, hr2, hp1, hp2, hwall⟩ := hrc
      rw [hg2h] at hr1
      rw [hg2w] at hr2
      refine ⟨hr1, hr2, hp1, hp2, ?_⟩
      by_cases hc1 : (⟨(rc.1 : Int), (rc.2 : Int)⟩ : Position) = chosen
      · rw [hc1] at hwall
        exact absurd (hchosenPath2.symm.trans hwall) (by simp)
      · by_cases hc2 : (⟨(rc.1 : Int), (rc.2 : Int)⟩ : Position) =
            positionBetweenFrontierAndCell n0 chosen
        · rw [hc2] at hwall
          exact absurd (hmidPath2.symm.trans hwall) (by simp)
        · rw [hsame _ hc1 hc2] at hwall
          exact hwall
    have hchosenPair : ((chosen.row.toNat, chosen.col.toNat) : Nat × Nat) ∈
        latticeWalls start g := frontier_mem_latticeWalls hfWall hfLat hchosen_mem
    have hpos : (⟨(chosen.row.toNat : Int), (chosen.col.toNat : Int)⟩ : Position) = chosen := by
      obtain ⟨ha, hb, hc, hd⟩ := hchosenIn'
      rw [Int.toNat_of_nonneg ha, Int.toNat_of_nonneg hc]
    have hchosenPairNot : ((chosen.row.toNat, chosen.col.toNat) : Nat × Nat) ∉
        latticeWalls start g2 := by
      rw [mem_latticeWalls]
      intro hmem
      obtain ⟨-, -, -, -, hwall⟩ := hmem
      rw [hpos] at hwall
      exact absurd (hchosenPath2.symm.trans hwall) (by simp)
    exact (Finset.ssubset_iff_of_subset hsub).mpr ⟨_, hchosenPair, hchosenPairNot⟩

theorem neighboursAtIteration_eq {st : GenState} {r : Nat → Nat} {chosen : Position} {g1 : Grid}
    (hget : st.frontierCells.get? (r st.randIdx % st.frontierCells.length) = some chosen)
    (hset1 : st.grid.setCellAtPosition chosen Cell.Path = some g1) :
    neighboursAtIteration st r =
      some (g1.frontierCellsForPositionMatchingCell chosen Cell.Path) := by
  unfold neighboursAtIteration
  dsimp only
  rw [hget]
  simp only [Option.bind_eq_bind, Option.some_bind]
  rw [hset1]
  simp only [Option.some_bind]
  rfl

theorem generateIteration_spec {start : Position} {st : GenState} (r : Nat → Nat)
    (hInv : MazeInv start st.grid st.frontierCells)
    (hne : st.frontierCells ≠ []) :
    ∃ st', generateIteration st r = some st' ∧
      MazeInv start st'.grid st'.frontierCells ∧
      st'.iterations = st.iterations + 1 ∧
      st'.grid.width = st.grid.width ∧
      st'.grid.height = st.grid.height ∧
      (∀ x, st.grid.cellAtPosition x = some Cell.Path →
        st'.grid.cellAtPosition x = some Cell.Path) ∧
      (∀ x, st'.grid.cellAtPosition x ≠ st.grid.cellAtPosition x →
        st'.grid.cellAtPosition x = some Cell.Path) ∧
      latticeWalls start st'.grid ⊂ latticeWalls start st.grid ∧
      (∃ ns, neighboursAtIteration st r = some ns ∧ ns ≠ []) := by
  obtain ⟨hwf, hstartPath, hnodup, hfWall, hfLat, hfNbr, hconn⟩ := hInv
  have hlpos : 0 < st.frontierCells.length := List.length_pos.mpr hne
  have hidx : r st.randIdx % st.frontierCells.length < st.frontierCells.length :=
    Nat.mod_lt _ hlpos
  obtain ⟨chosen, hget⟩ : ∃ x, st.frontierCells.get?
      (r st.randIdx % st.frontierCells.length) = some x := ⟨_, List.get?_eq_get hidx⟩
  have hchosen : st.frontierCells.get ⟨r st.randIdx % st.frontierCells.length, hidx⟩ = chosen :=
    Option.some.inj ((List.get?_eq_get hidx).symm.trans hget)
  have hchosen_mem : chosen ∈ st.frontierCells := hchosen ▸ List.get_mem _ _ _
  have hchosenWall := hfWall chosen hchosen_mem
  have hchosenIn := cellAtPosition_isInGrid hchosenWall
  have hg1cell : ∀ q, (st.grid.writeCell chosen Cell.Path).cellAtPosition q =
      if q = chosen then some Cell.Path else st.grid.cellAtPosition q :=
    cellAtPosition_writeCell hwf hchosenIn
  obtain ⟨q0, hq0step, hq0Path⟩ := hfNbr chosen hchosen_mem
  have hq0ne : q0 ≠ chosen := by
    intro h
    rw [h] at hq0Path
    exact absurd (hchosenWall.symm.trans hq0Path) (by simp)
  have hq0mem : q0 ∈ (st.grid.writeCell chosen Cell.Path).frontierCellsForPositionMatchingCell
      chosen Cell.Path := by
    refine mem_frontierCells.mpr ⟨hq0step, ?_⟩
    rw [hg1cell q0, if_neg hq0ne]
    exact hq0Path
  have hnbne : (st.grid.writeCell chosen Cell.Path).frontierCellsForPositionMatchingCell
      chosen Cell.Path ≠ [] := List.ne_nil_of_mem hq0mem
  have hnlpos : 0 < ((st.grid.writeCell chosen Cell.Path).frontierCellsForPositionMatchingCell
      chosen Cell.Path).length := List.length_pos.mpr hnbne
  have hnidx : r (st.randIdx + 1) %
      ((st.grid.writeCell chosen Cell.Path).frontierCellsForPositionMatchingCell
        chosen Cell.Path).length <
      ((st.grid.writeCell chosen Cell.Path).frontierCellsForPositionMatchingCell
        chosen Cell.Path).length := Nat.mod_lt _ hnlpos
  obtain ⟨n0, hnget⟩ : ∃ x,
      ((st.grid.writeCell chosen Cell.Path).frontierCellsForPositionMatchingCell
        chosen Cell.Path).get? (r (st.randIdx + 1) %
        ((st.grid.writeCell chosen Cell.Path).frontierCellsForPositionMatchingCell
          chosen Cell.Path).length) = some x := ⟨_, List.get?_eq_get hnidx⟩
  have hn0mem : n0 ∈ (st.grid.writeCell chosen Cell.Path).frontierCellsForPositionMatchingCell
      chosen Cell.Path := by
    obtain ⟨hlt, hgt⟩ := List.get?_eq_some.mp hnget
    exact hgt ▸ List.get_mem _ _ _
  obtain ⟨hset1, hset2, hInv2, hw, hh, hmono, hchanged, hmeas⟩ :=
    iteration_invariants hwf hstartPath hnodup hfWall hfLat hfNbr hconn hidx hchosen rfl
      hn0mem rfl
  exact ⟨_, generateIteration_eq hget hset1 rfl (List.isEmpty_eq_false.mpr hnbne) hnget hset2,
    hInv2, rfl, hw, hh, hmono, hchanged, hmeas,
    ⟨_, neighboursAtIteration_eq hget hset1, hnbne⟩⟩

theorem initState_grid (width height : Nat) (r : Nat → Nat) :
    (initState width height r).grid =
      (Grid.init width height).writeCell (startPosition width height r) Cell.Path := rfl

theorem initState_frontier (width height : Nat) (r : Nat → Nat) :
    (initState width height r).frontierCells =
      ((Grid.init width height).writeCell (startPosition width height r)
        Cell.Path).frontierCellsForPositionMatchingCell (startPosition width height r)
        Cell.Wall := rfl

theorem startPosition_isInGrid (width height : Nat) (r : Nat → Nat)
    (hw : 0 < width) (hh : 0 < height) :
    (Grid.init width height).isPositionInGrid (startPosition width height r) = true := by
  rw [isPositionInGrid_iff]
  have h1 := Nat.mod_lt (r 0) hh
  have h2 := Nat.mod_lt (r 1) hw
  simp only [startPosition, Grid.init]
  refine ⟨by omega, by omega, by omega, by omega⟩

theorem cellAtPosition_init {width height : Nat} {p : Position}
    (h : (Grid.init width height).isPositionInGrid p = true) :
    (Grid.init width height).cellAtPosition p = some Cell.Wall := by
  rw [cellAtPosition_of_isInGrid h]
  show some (((List.replicate height (List.replicate width Cell.Wall)).getD p.row.toNat
    []).getD p.col.toNat Cell.Wall) = some Cell.Wall
  rcases Nat.lt_or_ge p.row.toNat height with hi | hi
  · have hrow : (List.replicate height (List.replicate width Cell.Wall)).getD p.row.toNat [] =
        List.replicate width Cell.Wall := by
      rw [List.getD_eq_getElem (List.replicate height (List.replicate width Cell.Wall)) []
        (by simpa using hi)]
      exact List.getElem_replicate _ _
    rw [hrow]
    rcases Nat.lt_or_ge p.col.toNat width with hj | hj
    · rw [List.getD_eq_getElem (List.replicate width Cell.Wall) Cell.Wall (by simpa using hj),
        List.getElem_replicate]
    · rw [List.getD_eq_getElem?_getD, List.getElem?_eq_none (by simpa using hj)]
      rfl
  · have hrow : (List.replicate height (List.replicate width Cell.Wall)).getD p.row.toNat [] =
        ([] : List Cell) := by
      rw [List.getD_eq_getElem?_getD, List.getElem?_eq_none (by simpa using hi)]
      rfl
    rw [hrow]
    rfl

theorem generateMazeInit_eq (width height : Nat) (r : Nat → Nat)
    (hw : 0 < width) (hh : 0 < height) :
    generateMazeInit (Grid.init width height) r = some (initState width height r) := by
  have hin := startPosition_isInGrid width height r hw hh
  unfold generateMazeInit
  dsimp only
  rw [show (Grid.init width height).setCellAtPosition
      ⟨((r 0 % (Grid.init width height).height : Nat) : Int),
       ((r 1 % (Grid.init width height).width : Nat) : Int)⟩ Cell.Path =
      some ((Grid.init width height).writeCell (startPosition width height r) Cell.Path) from
    setCellAtPosition_of_isInGrid _ hin]
  simp only [Option.bind_eq_bind, Option.some_bind]
  rfl

theorem initState_inv (width height : Nat) (r : Nat → Nat) (hw : 0 < width) (hh : 0 < height) :
    MazeInv (startPosition width height r) (initState width height r).grid
      (initState width height r).frontierCells := by
  have hwf0 := gridWF_init width height
  have hin := startPosition_isInGrid width height r hw hh
  have hcell : ∀ q, ((Grid.init width height).writeCell (startPosition width height r)
      Cell.Path).cellAtPosition q =
      if q = startPosition width height r then some Cell.Path
      else (Grid.init width height).cellAtPosition q :=
    cellAtPosition_writeCell hwf0 hin
  rw [initState_grid, initState_frontier]
  refine ⟨writeCell_wf hwf0 hin, ?_, frontierCells_nodup _ _ _, ?_, ?_, ?_, ?_⟩
  · rw [hcell, if_pos rfl]
  · intro p hp
    exact (mem_frontierCells.mp hp).2
  · intro p hp
    obtain ⟨hstep, -⟩ := mem_frontierCells.mp hp
    rcases isStep2Neighbour_coords hstep with ⟨h1, h2⟩ | ⟨h1, h2⟩ <;> constructor <;> omega
  · intro p hp
    obtain ⟨hstep, -⟩ := mem_frontierCells.mp hp
    refine ⟨startPosition width height r, isStep2Neighbour_symm hstep, ?_⟩
    rw [hcell, if_pos rfl]
  · intro p hp
    rw [hcell] at hp
    by_cases hps : p = startPosition width height r
    · rw [hps]
      exact ReachablePath.refl _
    · rw [if_neg hps] at hp
      have hwall := cellAtPosition_init (cellAtPosition_isInGrid hp)
      rw [hwall] at hp
      exact absurd (Option.some.inj hp) (by simp)

/-! ### The generation loop -/

theorem generateLoop_empty (r : Nat → Nat) (fuel : Nat) (st : GenState)
    (h : st.frontierCells = []) : generateLoop r fuel st = some st := by
  cases fuel <;> simp [generateLoop, h]

theorem generateLoop_spec {start : Position} (r : Nat → Nat) :
    ∀ (fuel : Nat) (st : GenState),
    MazeInv start st.grid st.frontierCells →
    (latticeWalls start st.grid).card ≤ fuel →
    ∃ st', generateLoop r fuel st = some st' ∧
      st'.frontierCells = [] ∧
      MazeInv start st'.grid st'.frontierCells ∧
      st'.iterations ≤ st.iterations + (latticeWalls start st.grid).card ∧
      (∀ x, st.grid.cellAtPosition x = some Cell.Path →
        st'.grid.cellAtPosition x = some Cell.Path) ∧
      st'.grid.width = st.grid.width ∧ st'.grid.height = st.grid.height := by
  intro fuel
  induction fuel with
  | zero =>
    intro st hInv hcard
    by_cases hne : st.frontierCells = []
    · exact ⟨st, generateLoop_empty r 0 st hne, hne, hInv, by omega, fun x h => h, rfl, rfl⟩
    · exfalso
      obtain ⟨p, hp⟩ := List.exists_mem_of_ne_nil _ hne
      have hmem := frontier_mem_latticeWalls hInv.fWall hInv.fLattice hp
      have hpos : 0 < (latticeWalls start st.grid).card := Finset.card_pos.mpr ⟨_, hmem⟩
      omega
  | succ fuel ih =>
    intro st hInv hcard
    by_cases hne : st.frontierCells = []
    · exact ⟨st, generateLoop_empty r _ st hne, hne, hInv, by omega, fun x h => h, rfl, rfl⟩
    · obtain ⟨st1, hiter, hInv1, hit1, hw1, hh1, hmono1, -, hmeas1, -⟩ :=
        generateIteration_spec r hInv hne
      have hlt := Finset.card_lt_card hmeas1
      have hcard1 : (latticeWalls start st1.grid).card ≤ fuel := by omega
      obtain ⟨st', hloop, hfe, hInv', hit', hmono', hw', hh'⟩ := ih st1 hInv1 hcard1
      refine ⟨st', ?_, hfe, hInv', by omega,
        fun x hx => hmono' x (hmono1 x hx), by rw [hw', hw1], by rw [hh', hh1]⟩
      unfold generateLoop
      rw [if_neg hne, hiter]
      simp only [Option.bind_eq_bind, Option.some_bind]
      exact hloop

theorem latticeWalls_card_le (start : Position) (g : Grid) :
    (latticeWalls start g).card ≤ ((g.height + 1) / 2) * ((g.width + 1) / 2) := by
  have hle : (latticeWalls start g).card ≤
      ((Finset.range ((g.height + 1) / 2)) ×ˢ (Finset.range ((g.width + 1) / 2))).card := by
    apply Finset.card_le_card_of_injOn (fun rc => (rc.1 / 2, rc.2 / 2))
    · intro rc hrc
      rw [mem_latticeWalls] at hrc
      rw [Finset.mem_product, Finset.mem_range, Finset.mem_range]
      obtain ⟨h1, h2, -, -, -⟩ := hrc
      exact ⟨by omega, by omega⟩
    · intro a ha b hb hab
      rw [Finset.mem_coe, mem_latticeWalls] at ha hb
      obtain ⟨-, -, ha1, ha2, -⟩ := ha
      obtain ⟨-, -, hb1, hb2, -⟩ := hb
      obtain ⟨h1, h2⟩ := Prod.mk.injEq .. ▸ hab
      have e1 : a.1 = b.1 := by omega
      have e2 : a.2 = b.2 := by omega
      exact Prod.ext e1 e2
  rw [Finset.card_product, Finset.card_range, Finset.card_range] at hle
  exact hle

theorem reachesState_inv {start : Position} {r : Nat → Nat} {st0 st : GenState}
    (h0 : MazeInv start st0.grid st0.frontierCells)
    (h : ReachesState r st0 st) : MazeInv start st.grid st.frontierCells := by
  induction h with
  | refl => exact h0
  | tail st1 st2 hreach hne hiter ih =>
    obtain ⟨st2', hiter', hInv', -⟩ := generateIteration_spec r ih hne
    rw [hiter] at hiter'
    have he := Option.some.inj hiter'
    rw [he]
    exact hInv'

theorem reachesState_mono {start : Position} {r : Nat → Nat} {st st' : GenState}
    (hInv : MazeInv start st.grid st.frontierCells)
    (h : ReachesState r st st') :
    (∀ x, st.grid.cellAtPosition x = some Cell.Path →
      st'.grid.cellAtPosition x = some Cell.Path) ∧
    (∀ x, st'.grid.cellAtPosition x ≠ st.grid.cellAtPosition x →
      st'.grid.cellAtPosition x = some Cell.Path) := by
  induction h with
  | refl => exact ⟨fun x h => h, fun x hx => absurd rfl hx⟩
  | tail st1 st2 hreach hne hiter ih =>
    have hInv1 : MazeInv start st1.grid st1.frontierCells := reachesState_inv hInv hreach
    obtain ⟨st2', hiter', -, -, -, -, hmono1, hchanged1, -, -⟩ :=
      generateIteration_spec r hInv1 hne
    rw [hiter] at hiter'
    have he := Option.some.inj hiter'
    rw [← he] at hmono1 hchanged1
    refine ⟨fun x hx => hmono1 x (ih.1 x hx), ?_⟩
    intro x hx
    by_cases h1 : st2.grid.cellAtPosition x = st1.grid.cellAtPosition x
    · rw [h1]
      refine ih.2 x ?_
      rw [← h1]
      exact hx
    · exact hchanged1 x h1

theorem generateMaze_spec (width height : Nat) (r : Nat → Nat)
    (hw : 0 < width) (hh : 0 < height) :
    ∃ st, generateMaze (Grid.init width height) r = some st ∧
      st.frontierCells = [] ∧
      MazeInv (startPosition width height r) st.grid st.frontierCells ∧
      st.iterations ≤ ((width + 1) / 2) * ((height + 1) / 2) ∧
      st.grid.width = width ∧ st.grid.height = height := by
  have hinit_eq := generateMazeInit_eq width height r hw hh
  have hInv0 := initState_inv width height r hw hh
  have hcardle := latticeWalls_card_le (startPosition width height r)
    (initState width height r).grid
  have hgh : (initState width height r).grid.height = height := rfl
  have hgw : (initState width height r).grid.width = width := rfl
  rw [hgh, hgw] at hcardle
  have hfuel : (latticeWalls (startPosition width height r)
      (initState width height r).grid).card ≤ width * height := by
    have h1 : (height + 1) / 2 ≤ height := by omega
    have h2 : (width + 1) / 2 ≤ width := by omega
    have h3 : ((height + 1) / 2) * ((width + 1) / 2) ≤ height * width :=
      Nat.mul_le_mul h1 h2
    have h4 : height * width = width * height := Nat.mul_comm height width
    omega
  obtain ⟨st, hloop, hfe, hInvF, hitF, hmonoF, hwF, hhF⟩ :=
    generateLoop_spec r (width * height) (initState width height r) hInv0 hfuel
  refine ⟨st, ?_, hfe, hInvF, ?_, ?_, ?_⟩
  · unfold generateMaze
    rw [hinit_eq]
    simp only [Option.bind_eq_bind, Option.some_bind]
    exact hloop
  · have h0 : (initState width height r).iterations = 0 := rfl
    have hmc : ((height + 1) / 2) * ((width + 1) / 2) =
        ((width + 1) / 2) * ((height + 1) / 2) := Nat.mul_comm _ _
    omega
  · rw [hwF]
    exact hgw
  · rw [hhF]
    exact hgh

/-- Claim C1: after `generateMaze` terminates, every `Path` cell in the grid is
reachable from every other `Path` cell via a sequence of 4-directionally
adjacent, single-step `Path` cells. -/
theorem claim_C1_connectivity (width height : Nat) (r : Nat → Nat)
    (hw : 0 < width) (hh : 0 < height) :
    ∃ st, generateMaze (Grid.init width height) r = some st ∧
      ∀ p q : Position, st.grid.cellAtPosition p = some Cell.Path →
        st.grid.cellAtPosition q = some Cell.Path → ReachablePath st.grid p q := by
  obtain ⟨st, heq, -, hInv, -, -, -⟩ := generateMaze_spec width height r hw hh
  refine ⟨st, heq, fun p q hp hq => ?_⟩
  exact reachablePath_trans (reachablePath_symm (hInv.connected p hp) hInv.startPath)
    (hInv.connected q hq)

/-- Witness for claim C1 at a concrete 3×3 grid and random stream. -/
theorem claim_C1_witness :
    ∃ st, generateMaze (Grid.init 3 3) (fun _ => 0) = some st ∧
      ∀ p q : Position, st.grid.cellAtPosition p = some Cell.Path →
        st.grid.cellAtPosition q = some Cell.Path → ReachablePath st.grid p q :=
  claim_C1_connectivity 3 3 (fun _ => 0) (by decide) (by decide)

/-- Counterexample to claim C2 as stated: on a 3×3 grid with the all-zero
random stream, `generateMaze` performs 3 loop iterations, and
3 > (3×3)/4 (the quotient is 2 as an integer and 2.25 as a real). -/
theorem claim_C2_counterexample :
    ¬ (∀ st, generateMaze (Grid.init 3 3) (fun _ => 0) = some st →
        st.iterations ≤ 3 * 3 / 4) := by
  intro hall
  have hmap : (generateMaze (Grid.init 3 3) (fun _ => 0)).map GenState.iterations =
      some 3 := by decide
  obtain ⟨st, hst, hit⟩ := Option.map_eq_some'.mp hmap
  have hle := hall st hst
  have hit' : st.iterations = 3 := hit
  omega

/-- Claim C2 (amended): for every grid with positive width and height and every
sequence of random draws, `generateMaze` terminates with the frontier set
empty, and the number of loop iterations is at most ⌈width/2⌉ × ⌈height/2⌉
(the step-2 lattice point count). -/
theorem claim_C2_termination_bound (width height : Nat) (r : Nat → Nat)
    (hw : 0 < width) (hh : 0 < height) :
    ∃ st, generateMaze (Grid.init width height) r = some st ∧
      st.frontierCells = [] ∧
      st.iterations ≤ ((width + 1) / 2) * ((height + 1) / 2) := by
  obtain ⟨st, heq, hfe, -, hit, -, -⟩ := generateMaze_spec width height r hw hh
  exact ⟨st, heq, hfe, hit⟩

/-- Witness for the amended claim C2 at a concrete 3×3 grid. -/
theorem claim_C2_witness :
    ∃ st, generateMaze (Grid.init 3 3) (fun _ => 0) = some st ∧
      st.frontierCells = [] ∧
      st.iterations ≤ ((3 + 1) / 2) * ((3 + 1) / 2) :=
  claim_C2_termination_bound 3 3 (fun _ => 0) (by decide) (by decide)

/-- Claim C3: for every grid with positive width and height, every cell access
performed during `generateMaze` is in bounds, so the assertion in
`cellAtPosition` never fires.  In the embedding any out-of-bounds access
yields `none`, so the conclusion `= some st` asserts exactly this. -/
theorem claim_C3_bounds_safety (width height : Nat) (r : Nat → Nat)
    (hw : 0 < width) (hh : 0 < height) :
    ∃ st, generateMaze (Grid.init width height) r = some st := by
  obtain ⟨st, heq, -⟩ := generateMaze_spec width height r hw hh
  exact ⟨st, heq⟩

/-- Witness for claim C3 at the reference build dimensions (30 columns × 20
rows, i.e. width 20 is the row length here: `Grid.init 20 30`). -/
theorem claim_C3_witness :
    ∃ st, generateMaze (Grid.init 20 30) (fun n => n * 17 + 5) = some st :=
  claim_C3_bounds_safety 20 30 (fun n => n * 17 + 5) (by decide) (by decide)

/-- Claim C4: at the start of every iteration of the generation loop, the
frontier set contains no position more than once. -/
theorem claim_C4_no_duplicates (width height : Nat) (r : Nat → Nat) (st0 st : GenState)
    (hw : 0 < width) (hh : 0 < height)
    (hInit : generateMazeInit (Grid.init width height) r = some st0)
    (hReach : ReachesState r st0 st) :
    st.frontierCells.Nodup := by
  have heq := generateMazeInit_eq width height r hw hh
  rw [hInit] at heq
  have h0 : st0 = initState width height r := Option.some.inj heq
  have hInv0 := initState_inv width height r hw hh
  rw [← h0] at hInv0
  exact (reachesState_inv hInv0 hReach).nodup

/-- Witness for claim C4 at the initial state of a 3×3 run. -/
theorem claim_C4_witness : (initState 3 3 (fun _ => 0)).frontierCells.Nodup :=
  claim_C4_no_duplicates 3 3 (fun _ => 0) (initState 3 3 (fun _ => 0))
    (initState 3 3 (fun _ => 0)) (by decide) (by decide) (by decide) (ReachesState.refl _)

/-- Claim C5: during `generateMaze`, no cell ever transitions from `Path` back
to `Wall`: between any two states of the run, cells that were `Path` stay
`Path`, and any cell that changed is now `Path`. -/
theorem claim_C5_monotonicity (width height : Nat) (r : Nat → Nat) (st0 st st' : GenState)
    (hw : 0 < width) (hh : 0 < height)
    (hInit : generateMazeInit (Grid.init width height) r = some st0)
    (h1 : ReachesState r st0 st) (h2 : ReachesState r st st') :
    (∀ x, st.grid.cellAtPosition x = some Cell.Path →
      st'.grid.cellAtPosition x = some Cell.Path) ∧
    (∀ x, st'.grid.cellAtPosition x ≠ st.grid.cellAtPosition x →
      st'.grid.cellAtPosition x = some Cell.Path) := by
  have heq := generateMazeInit_eq width height r hw hh
  rw [hInit] at heq
  have h0 : st0 = initState width height r := Option.some.inj heq
  have hInv0 := initState_inv width height r hw hh
  rw [← h0] at hInv0
  exact reachesState_mono (reachesState_inv hInv0 h1) h2

/-- Witness for claim C5 at the initial state of a 3×3 run. -/
theorem claim_C5_witness :
    (∀ x, (initState 3 3 (fun _ => 0)).grid.cellAtPosition x = some Cell.Path →
      (initState 3 3 (fun _ => 0)).grid.cellAtPosition x = some Cell.Path) ∧
    (∀ x, (initState 3 3 (fun _ => 0)).grid.cellAtPosition x ≠
        (initState 3 3 (fun _ => 0)).grid.cellAtPosition x →
      (initState 3 3 (fun _ => 0)).grid.cellAtPosition x = some Cell.Path) :=
  claim_C5_monotonicity 3 3 (fun _ => 0) (initState 3 3 (fun _ => 0))
    (initState 3 3 (fun _ => 0)) (initState 3 3 (fun _ => 0)) (by decide) (by decide)
    (by decide) (ReachesState.refl _) (ReachesState.refl _)

/-- Claim C6: whenever a frontier cell is chosen in the generation loop, the
`neighbours` list computed for it (step-2 `Path` neighbours after the chosen
cell is marked) is non-empty, so the defensive skip-carving branch is never
taken. -/
theorem claim_C6_neighbours_nonempty (width height : Nat) (r : Nat → Nat) (st0 st : GenState)
    (hw : 0 < width) (hh : 0 < height)
    (hInit : generateMazeInit (Grid.init width height) r = some st0)
    (hReach : ReachesState r st0 st) (hne : st.frontierCells ≠ []) :
    ∃ ns, neighboursAtIteration st r = some ns ∧ ns ≠ [] := by
  have heq := generateMazeInit_eq width height r hw hh
  rw [hInit] at heq
  have h0 : st0 = initState width height r := Option.some.inj heq
  have hInv0 := initState_inv width height r hw hh
  rw [← h0] at hInv0
  obtain ⟨st1, -, -, -, -, -, -, -, -, hns⟩ :=
    generateIteration_spec r (reachesState_inv hInv0 hReach) hne
  exact hns

/-- Witness for claim C6 at the initial state of a 3×3 run. -/
theorem claim_C6_witness :
    ∃ ns, neighboursAtIteration (initState 3 3 (fun _ => 0)) (fun _ => 0) = some ns ∧
      ns ≠ [] :=
  claim_C6_neighbours_nonempty 3 3 (fun _ => 0) (initState 3 3 (fun _ => 0))
    (initState 3 3 (fun _ => 0)) (by decide) (by decide) (by decide)
    (ReachesState.refl _) (by decide)

/-- Claim C7: for a grid so small that no cell has an in-bounds step-2
neighbour (width and height at most 2), `generateMaze` terminates immediately
with exactly the start cell marked `Path`, all other cells still `Wall`, an
empty frontier set, and zero loop iterations. -/
theorem claim_C7_minimum_grid (width height : Nat) (r : Nat → Nat)
    (hw : 0 < width) (hw2 : width ≤ 2) (hh : 0 < height) (hh2 : height ≤ 2) :
    ∃ st, generateMaze (Grid.init width height) r = some st ∧
      st.frontierCells = [] ∧ st.iterations = 0 ∧
      st.grid.cellAtPosition (startPosition width height r) = some Cell.Path ∧
      (∀ p, st.grid.isPositionInGrid p = true → p ≠ startPosition width height r →
        st.grid.cellAtPosition p = some Cell.Wall) := by
  have hin := startPosition_isInGrid width height r hw hh
  have hwf0 := gridWF_init width height
  have hcell := cellAtPosition_writeCell (c := Cell.Path) hwf0 hin
  have hempty : (initState width height r).frontierCells = [] := by
    rw [initState_frontier, List.eq_nil_iff_forall_not_mem]
    intro q hq
    obtain ⟨hstep, hwall⟩ := mem_frontierCells.mp hq
    have hqin' : 0 ≤ q.row ∧ q.row < (height : Int) ∧ 0 ≤ q.col ∧ q.col < (width : Int) :=
      (isPositionInGrid_iff _ _).mp (cellAtPosition_isInGrid hwall)
    have hsin' : 0 ≤ (startPosition width height r).row ∧
        (startPosition width height r).row < (height : Int) ∧
        0 ≤ (startPosition width height r).col ∧
        (startPosition width height r).col < (width : Int) :=
      (isPositionInGrid_iff _ _).mp hin
    rcases isStep2Neighbour_coords hstep with ⟨h1, h2⟩ | ⟨h1, h2⟩ <;> omega
  refine ⟨initState width height r, ?_, hempty, rfl, ?_, ?_⟩
  · unfold generateMaze
    rw [generateMazeInit_eq width height r hw hh]
    simp only [Option.bind_eq_bind, Option.some_bind]
    exact generateLoop_empty r _ _ hempty
  · rw [initState_grid, hcell, if_pos rfl]
  · intro p hpin hpne
    rw [initState_grid, hcell, if_neg hpne]
    exact cellAtPosition_init hpin

/-- Witness for claim C7 on the 1×1 grid. -/
theorem claim_C7_witness :
    ∃ st, generateMaze (Grid.init 1 1) (fun _ => 0) = some st ∧
      st.frontierCells = [] ∧ st.iterations = 0 ∧
      st.grid.cellAtPosition (startPosition 1 1 (fun _ => 0)) = some Cell.Path ∧
      (∀ p, st.grid.isPositionInGrid p = true → p ≠ startPosition 1 1 (fun _ => 0) →
        st.grid.cellAtPosition p = some Cell.Wall) :=
  claim_C7_minimum_grid 1 1 (fun _ => 0) (by decide) (by decide) (by decide) (by decide)

/-- Claim C8: for positions exactly 2 apart in exactly one axis,
`positionBetweenFrontierAndCell` returns the unique position 1 step from each
along that axis; for equal positions it returns the position unchanged. -/
theorem claim_C8_midpoint (a b : Position) :
    (a.row = b.row → a.col = b.col + 2 →
      positionBetweenFrontierAndCell a b = ⟨b.row, b.col + 1⟩) ∧
    (a.row = b.row → b.col = a.col + 2 →
      positionBetweenFrontierAndCell a b = ⟨b.row, b.col - 1⟩) ∧
    (a.col = b.col → a.row = b.row + 2 →
      positionBetweenFrontierAndCell a b = ⟨b.row + 1, b.col⟩) ∧
    (a.col = b.col → b.row = a.row + 2 →
      positionBetweenFrontierAndCell a b = ⟨b.row - 1, b.col⟩) ∧
    (a = b → positionBetweenFrontierAndCell a b = a) := by
  refine ⟨?_, ?_, ?_, ?_, ?_⟩
  · intro h1 h2
    simp only [positionBetweenFrontierAndCell]
    split_ifs <;> first | rfl | (exfalso; omega)
  · intro h1 h2
    simp only [positionBetweenFrontierAndCell]
    split_ifs <;> first | rfl | (exfalso; omega)
  · intro h1 h2
    simp only [positionBetweenFrontierAndCell]
    split_ifs <;> first | rfl | (exfalso; omega)
  · intro h1 h2
    simp only [positionBetweenFrontierAndCell]
    split_ifs <;> first | rfl | (exfalso; omega)
  · intro h
    subst h
    simp only [positionBetweenFrontierAndCell]
    split_ifs <;> first | rfl | (exfalso; omega)

/-- Witness for claim C8 at concrete positions. -/
theorem claim_C8_witness :
    positionBetweenFrontierAndCell ⟨0, 2⟩ ⟨0, 0⟩ = ⟨0, 1⟩ ∧
    positionBetweenFrontierAndCell ⟨5, 5⟩ ⟨5, 5⟩ = ⟨5, 5⟩ := by
  constructor
  · have h := (claim_C8_midpoint ⟨0, 2⟩ ⟨0, 0⟩).1 (by decide) (by decide)
    simpa using h
  · exact (claim_C8_midpoint ⟨5, 5⟩ ⟨5, 5⟩).2.2.2.2 rfl

/-- Claim C9: `print` is a pure read of the grid — it is a function of the
cell matrix only, producing for each row (top to bottom) a line of `width`
glyphs, the wall glyph for `Wall` cells and a space for `Path` cells; hence
repeated calls produce identical output and no cell changes. -/
theorem claim_C9_render (g : Grid) (hwf : GridWF g) :
    g.print.length = g.height ∧
    (∀ line ∈ g.print, line.length = g.width) ∧
    (∀ p c, g.cellAtPosition p = some c →
      (g.print.getD p.row.toNat []).getD p.col.toNat ' ' = printCell c) ∧
    (∀ g' : Grid, g.cells = g'.cells → g.print = g'.print) := by
  obtain ⟨hlen, hrows⟩ := hwf
  refine ⟨?_, ?_, ?_, ?_⟩
  · rw [Grid.print, List.length_map]
    exact hlen
  · intro line hline
    rw [Grid.print, List.mem_map] at hline
    obtain ⟨row, hrow, rfl⟩ := hline
    rw [List.length_map]
    exact hrows row hrow
  · intro p c hp
    have hin := (isPositionInGrid_iff _ _).mp (cellAtPosition_isInGrid hp)
    have hrowlt : p.row.toNat < g.cells.length := by omega
    have hrowlen : g.cells[p.row.toNat].length = g.width := hrows _ (List.getElem_mem hrowlt)
    have hcollt : p.col.toNat < g.cells[p.row.toNat].length := by rw [hrowlen]; omega
    rw [cellAtPosition_of_isInGrid (cellAtPosition_isInGrid hp)] at hp
    have hc : (g.cells.getD p.row.toNat []).getD p.col.toNat Cell.Wall = c :=
      Option.some.inj hp
    have hOuter : (List.map (fun row => List.map printCell row) g.cells).getD p.row.toNat [] =
        List.map printCell g.cells[p.row.toNat] := by
      rw [List.getD_eq_getElem (List.map (fun row => List.map printCell row) g.cells) []
        (by rw [List.length_map]; exact hrowlt), List.getElem_map]
    have hInner : (List.map printCell g.cells[p.row.toNat]).getD p.col.toNat ' ' =
        printCell g.cells[p.row.toNat][p.col.toNat] := by
      rw [List.getD_eq_getElem (List.map printCell g.cells[p.row.toNat]) ' '
        (by rw [List.length_map]; exact hcollt), List.getElem_map]
    have hc2 : g.cells[p.row.toNat][p.col.toNat] = c := by
      rw [← hc, List.getD_eq_getElem g.cells [] hrowlt,
        List.getD_eq_getElem (g.cells[p.row.toNat]) Cell.Wall hcollt]
    rw [Grid.print, hOuter, hInner, hc2]
  · intro g' hcells
    rw [Grid.print, Grid.print, hcells]

/-- Witness for claim C9 on a concrete 2×3 grid. -/
theorem claim_C9_witness :
    (Grid.init 2 3).print.length = (Grid.init 2 3).height ∧
    (∀ line ∈ (Grid.init 2 3).print, line.length = (Grid.init 2 3).width) ∧
    (∀ p c, (Grid.init 2 3).cellAtPosition p = some c →
      ((Grid.init 2 3).print.getD p.row.toNat []).getD p.col.toNat ' ' = printCell c) ∧
    (∀ g' : Grid, (Grid.init 2 3).cells = g'.cells → (Grid.init 2 3).print = g'.print) :=
  claim_C9_render (Grid.init 2 3) ⟨by decide, by decide⟩

/-- Claim C10: at the start of every iteration of the generation loop, every
position in the frontier set holds a `Wall` cell. -/
theorem claim_C10_frontier_wall (width height : Nat) (r : Nat → Nat) (st0 st : GenState)
    (hw : 0 < width) (hh : 0 < height)
    (hInit : generateMazeInit (Grid.init width height) r = some st0)
    (hReach : ReachesState r st0 st) :
    ∀ p ∈ st.frontierCells, st.grid.cellAtPosition p = some Cell.Wall := by
  have heq := generateMazeInit_eq width height r hw hh
  rw [hInit] at heq
  have h0 : st0 = initState width height r := Option.some.inj heq
  have hInv0 := initState_inv width height r hw hh
  rw [← h0] at hInv0
  exact (reachesState_inv hInv0 hReach).fWall

/-- Witness for claim C10 at the initial state of a 3×3 run, instantiated at
the frontier member (0, 2). -/
theorem claim_C10_witness :
    (initState 3 3 (fun _ => 0)).grid.cellAtPosition ⟨0, 2⟩ = some Cell.Wall :=
  claim_C10_frontier_wall 3 3 (fun _ => 0) (initState 3 3 (fun _ => 0))
    (initState 3 3 (fun _ => 0)) (by decide) (by decide) (by decide) (ReachesState.refl _)
    ⟨0, 2⟩ (by decide)
